import Mathlib

/-!
Verification of tools/orchestrator_get_schema_rules.py.

The Python module works on JSON documents loaded by json.load: dicts with
string keys, lists, strings, numbers, booleans and null.  We embed such
values as the inductive type Json below; a Python dict is modelled as an
ordered association list (insertion order, unique keys in any dict Python
can actually build).

The three functions under study:
  * filter_schema_for_id_workflows (lines 10-46)  -> filterSchema
  * count_tokens_estimate          (lines 49-55)  -> count_tokens_estimate
  * the statistics block of get_filtered_schema_rules (lines 106-115)
        -> tokenReductionPercent / sizeReductionPercent
Python float arithmetic of the percentage lines is modelled by exact
rationals; the claims under study concern the guard structure and the
algebraic formula, not IEEE rounding.
-/

namespace OrchestratorSchemaRules

/-- A JSON value as produced by Python's json.load: null, bool, number,
string, array, object (with string keys, in insertion order).  Numbers are
modelled as integers; no claim depends on fractional values. -/
inductive Json where
  | null
  | bool (b : Bool)
  | num (n : Int)
  | str (s : String)
  | arr (elems : List Json)
  | obj (members : List (String × Json))

/-- A Python dict with string keys: ordered association list. -/
abbrev Obj := List (String × Json)

/-- Python dict membership: k in d. -/
def objContains (k : String) : Obj → Bool
  | [] => false
  | (k', _) :: rest => k' = k || objContains k rest

/-- Python dict lookup d[k] (None when absent; we only look up under a
membership guard, matching the source). -/
def objGet (k : String) : Obj → Option Json
  | [] => none
  | (k', v) :: rest => if k' = k then some v else objGet k rest

/-- Python del d[k]: drop the entry (dicts hold at most one entry per key). -/
def objErase (k : String) : Obj → Obj
  | [] => []
  | (k', v) :: rest => if k' = k then objErase k rest else (k', v) :: objErase k rest

/-- Replace the value stored at an existing key, in place (Python
d[k] = v when k is already present). -/
def objSetIn (k : String) (v : Json) : Obj → Obj
  | [] => []
  | (k', v') :: rest =>
      if k' = k then (k', v) :: objSetIn k v rest else (k', v') :: objSetIn k v rest

/-- Python dict assignment d[k] = v: overwrite in place when present,
append otherwise. -/
def objSet (k : String) (v : Json) (o : Obj) : Obj :=
  if objContains k o then objSetIn k v o else o ++ [(k, v)]

/-- Whether the character list starting here begins with pre. -/
def listStartsWith : List Char → List Char → Bool
  | [], _ => true
  | _ :: _, [] => false
  | a :: as, b :: bs => a = b && listStartsWith as bs

/-- Whether sub occurs as a contiguous sublist. -/
def listHasSub (sub : List Char) : List Char → Bool
  | [] => sub.isEmpty
  | c :: rest => listStartsWith sub (c :: rest) || listHasSub sub rest

/-- Python substring test sub in s. -/
def strContainsSub (sub s : String) : Bool :=
  listHasSub sub.data s.data

/-- Python equality of a JSON value against the string k: a str equals a
str of the same characters; a str equals no bool, number, null, list or
dict. -/
def pyEqStr (k : String) : Json → Bool
  | .str s => s = k
  | _ => false

/-- Python membership k in v for a string k against an arbitrary JSON value:
key membership on dicts, element membership on lists, substring on
strings, TypeError otherwise. -/
def pyContains (k : String) : Json → Except String Bool
  | .obj o => .ok (objContains k o)
  | .arr xs => .ok (xs.any (pyEqStr k))
  | .str s => .ok (strContainsSub k s)
  | _ => .error "TypeError: argument of type is not iterable"

/-- Python del v[k] for a string k: entry deletion on dicts, TypeError on
any other value (list and str indices must be integers / str is
immutable). -/
def pyDelItem (k : String) : Json → Except String Json
  | .obj o => .ok (.obj (objErase k o))
  | _ => .error "TypeError: object does not support string item deletion"

mutual
/-- json.loads(json.dumps(v)): an independent, deeply equal copy of the
tree (line 21 of the source).  On values of type Json the round trip
rebuilds the same tree. -/
def deepCopy : Json → Json
  | .null => .null
  | .bool b => .bool b
  | .num n => .num n
  | .str s => .str s
  | .arr xs => .arr (deepCopyList xs)
  | .obj o => .obj (deepCopyObj o)
def deepCopyList : List Json → List Json
  | [] => []
  | x :: xs => deepCopy x :: deepCopyList xs
def deepCopyObj : Obj → Obj
  | [] => []
  | (k, v) :: rest => (k, deepCopy v) :: deepCopyObj rest
end

/-- The replacement oneOf value (lines 30-38):
[{"required": ["id", "specVersion", "states"]}]. -/
def idOneOfValue : Json :=
  .arr [.obj [("required", .arr [.str "id", .str "specVersion", .str "states"])]]

/-- The replacement description string (lines 42-44). -/
def filteredDescription : String :=
  "Serverless Workflow specification - workflow schema (ID-based workflows only)"

/-- Lines 24-25: if "properties" in fs and "key" in fs["properties"]:
del fs["properties"]["key"].  Python evaluates the conjunction left to
right; the membership test and the deletion can raise TypeError when the
"properties" value is not a dict. -/
def removeKeyProperty (fs : Obj) : Except String Obj :=
  match objGet "properties" fs with
  | none => .ok fs
  | some v =>
      match pyContains "key" v with
      | .error e => .error e
      | .ok false => .ok fs
      | .ok true =>
          match pyDelItem "key" v with
          | .error e => .error e
          | .ok v' => .ok (objSet "properties" v' fs)

/-- Lines 28-38: if "oneOf" in fs: fs["oneOf"] = idOneOfValue. -/
def narrowOneOf (fs : Obj) : Obj :=
  if objContains "oneOf" fs then objSet "oneOf" idOneOfValue fs else fs

/-- Lines 41-44: if "description" in fs: fs["description"] = the fixed
annotated string. -/
def updateDescription (fs : Obj) : Obj :=
  if objContains "description" fs then objSet "description" (.str filteredDescription) fs else fs

/-- filter_schema_for_id_workflows (lines 10-46): deep-copy the input,
drop properties.key, narrow oneOf, rewrite description.  The Except layer
carries the TypeError that line 24 can raise. -/
def filterSchema (schema_dict : Obj) : Except String Obj :=
  match removeKeyProperty (deepCopyObj schema_dict) with
  | .error e => .error e
  | .ok fs => .ok (updateDescription (narrowOneOf fs))

/-- count_tokens_estimate (lines 49-55): len(text) // 4.  Python len of a
str counts code points, as String.length does. -/
def count_tokens_estimate (text : String) : Nat :=
  text.length / 4

/-- Lines 106-109: reduction = original_tokens - filtered_tokens;
reduction_percent = (reduction / original_tokens) * 100 if
original_tokens > 0 else 0.  Float division is modelled exactly in ℚ. -/
def tokenReductionPercent (originalJson filteredJson : String) : ℚ :=
  let original_tokens := count_tokens_estimate originalJson
  let filtered_tokens := count_tokens_estimate filteredJson
  let reduction : Int := (original_tokens : Int) - (filtered_tokens : Int)
  if original_tokens > 0 then (reduction : ℚ) / (original_tokens : ℚ) * 100 else 0

/-- Lines 112-115: size_reduction = original_size - filtered_size;
size_reduction_percent = (size_reduction / original_size) * 100 if
original_size > 0 else 0, where the sizes are the lengths of the compact
serializations. -/
def sizeReductionPercent (originalJson filteredJson : String) : ℚ :=
  let original_size := originalJson.length
  let filtered_size := filteredJson.length
  let size_reduction : Int := (original_size : Int) - (filtered_size : Int)
  if original_size > 0 then (size_reduction : ℚ) / (original_size : ℚ) * 100 else 0

/-- The two locals of filter_schema_for_id_workflows: the parameter
schema_dict and the working copy filtered_schema. -/
structure PyState where
  schema_dict : Obj
  filtered_schema : Obj

/-- Statement-level state-passing embedding of the body of
filter_schema_for_id_workflows: line 21 binds filtered_schema to an
independent deep copy; every later statement rewrites only the
filtered_schema component (the source never assigns to schema_dict, and
after the deep copy the two trees share no node).  On a TypeError the
error carries the state at the raise. -/
def runFilterBody (d : Obj) : Except (String × PyState) PyState :=
  let s0 : PyState := { schema_dict := d, filtered_schema := deepCopyObj d }
  match removeKeyProperty s0.filtered_schema with
  | .error e => .error (e, s0)
  | .ok fs =>
      let s1 : PyState := { s0 with filtered_schema := fs }
      let s2 : PyState := { s1 with filtered_schema := narrowOneOf s1.filtered_schema }
      let s3 : PyState := { s2 with filtered_schema := updateDescription s2.filtered_schema }
      .ok s3

/-- True exactly when line 24 of the source runs without a TypeError on a
document whose "properties" value is v: the membership test "key" in v
succeeds, and when it reports True the deletion del v["key"] succeeds as
well.  Any dict qualifies, as does any list or str not containing "key". -/
def propsTolerates (v : Json) : Bool :=
  match pyContains "key" v with
  | .error _ => false
  | .ok false => true
  | .ok true =>
      match pyDelItem "key" v with
      | .error _ => false
      | .ok _ => true

/-- The scenario input of the spec: both workflow variants present. -/
def scenarioInput : Obj :=
  [("properties", .obj [("key", .obj [("type", .str "string")]),
                        ("id", .obj [("type", .str "string")])]),
   ("oneOf", .arr [.obj [("required", .arr [.str "key", .str "specVersion", .str "states"])],
                   .obj [("required", .arr [.str "id", .str "specVersion", .str "states"])]]),
   ("description", .str "Serverless Workflow specification - workflow schema")]

/-- The scenario output of the spec: ID-based variant only. -/
def scenarioOutput : Obj :=
  [("properties", .obj [("id", .obj [("type", .str "string")])]),
   ("oneOf", .arr [.obj [("required", .arr [.str "id", .str "specVersion", .str "states"])]]),
   ("description",
    .str "Serverless Workflow specification - workflow schema (ID-based workflows only)")]

/-- Example document with a non-canonical oneOf value. -/
def exOneOfDoc : Obj := [("oneOf", .num 1)]

/-- What filterSchema returns on exOneOfDoc. -/
def exOneOfOut : Obj := [("oneOf", idOneOfValue)]

/-- Example document for the non-mutation run. -/
def exRunDoc : Obj := [("oneOf", Json.null)]

/-- Final variable state of the non-mutation run on exRunDoc. -/
def exRunState : PyState :=
  { schema_dict := [("oneOf", Json.null)], filtered_schema := [("oneOf", idOneOfValue)] }

/-- Example document exercising every edit plus untouched extra entries. -/
def exFullDoc : Obj :=
  [("$schema", .str "http://json-schema.org/draft-07/schema#"),
   ("properties", .obj [("key", .null), ("id", .null)]),
   ("oneOf", .num 2),
   ("description", .str "workflow"),
   ("definitions", .str "shared")]

/-- What filterSchema returns on exFullDoc. -/
def exFullOut : Obj :=
  [("$schema", .str "http://json-schema.org/draft-07/schema#"),
   ("properties", .obj [("id", .null)]),
   ("oneOf", idOneOfValue),
   ("description", .str filteredDescription),
   ("definitions", .str "shared")]

/-! ### Basic lemmas about the dict and copy primitives -/

mutual
theorem deepCopy_eq : ∀ v : Json, deepCopy v = v
  | .null => rfl
  | .bool _ => rfl
  | .num _ => rfl
  | .str _ => rfl
  | .arr xs => by rw [deepCopy, deepCopyList_eq]
  | .obj o => by rw [deepCopy, deepCopyObj_eq]
theorem deepCopyList_eq : ∀ xs : List Json, deepCopyList xs = xs
  | [] => rfl
  | x :: xs => by rw [deepCopyList, deepCopy_eq, deepCopyList_eq]
theorem deepCopyObj_eq : ∀ o : Obj, deepCopyObj o = o
  | [] => rfl
  | (k, v) :: rest => by rw [deepCopyObj, deepCopy_eq, deepCopyObj_eq]
end

theorem bool_eq_false {b : Bool} (h : ¬(b = true)) : b = false := by
  cases b
  · rfl
  · exact absurd rfl h

theorem objContains_eq_isSome (k : String) (o : Obj) :
    objContains k o = (objGet k o).isSome := by
  induction o with
  | nil => rfl
  | cons p rest ih =>
      obtain ⟨k', v⟩ := p
      by_cases h : k' = k
      · simp [objContains, objGet, h]
      · simp [objContains, objGet, h, ih]

theorem objContains_of_objGet {k : String} {o : Obj} {v : Json}
    (h : objGet k o = some v) : objContains k o = true := by
  rw [objContains_eq_isSome, h]; rfl

theorem objGet_eq_none_of_contains_false {k : String} {o : Obj}
    (h : objContains k o = false) : objGet k o = none := by
  rw [objContains_eq_isSome] at h
  exact Option.not_isSome_iff_eq_none.mp (by simp [h])

theorem objContains_iff_mem_keys {k : String} {o : Obj} :
    objContains k o = true ↔ k ∈ o.map Prod.fst := by
  induction o with
  | nil => simp [objContains]
  | cons p rest ih =>
      obtain ⟨k', v⟩ := p
      simp only [objContains, Bool.or_eq_true, decide_eq_true_eq, List.map_cons,
        List.mem_cons]
      exact or_congr eq_comm ih

theorem objContains_congr_keys {k : String} {o o' : Obj}
    (h : o.map Prod.fst = o'.map Prod.fst) : objContains k o = objContains k o' := by
  rw [Bool.eq_iff_iff, objContains_iff_mem_keys, objContains_iff_mem_keys, h]

theorem objSetIn_keys (k : String) (v : Json) (o : Obj) :
    (objSetIn k v o).map Prod.fst = o.map Prod.fst := by
  induction o with
  | nil => rfl
  | cons p rest ih =>
      obtain ⟨k', v'⟩ := p
      by_cases h : k' = k <;> simp [objSetIn, h, ih]

theorem objGet_objSetIn_self {k : String} (v : Json) {o : Obj}
    (h : objContains k o = true) : objGet k (objSetIn k v o) = some v := by
  induction o with
  | nil => simp [objContains] at h
  | cons p rest ih =>
      obtain ⟨k', v'⟩ := p
      by_cases hk : k' = k
      · simp [objSetIn, objGet, hk]
      · simp only [objContains, Bool.or_eq_true, decide_eq_true_eq] at h
        rcases h with h | h
        · exact absurd h hk
        · simp [objSetIn, objGet, hk, ih h]

theorem objGet_objSetIn_ne {k k' : String} (v : Json) (hk : k' ≠ k) (o : Obj) :
    objGet k' (objSetIn k v o) = objGet k' o := by
  induction o with
  | nil => rfl
  | cons p rest ih =>
      obtain ⟨k'', v''⟩ := p
      by_cases h : k'' = k
      · have hne : ¬(k'' = k') := fun hh => hk (hh.symm.trans h)
        simp only [objSetIn, if_pos h, objGet]
        rw [if_neg hne, if_neg hne, ih]
      · simp only [objSetIn, if_neg h, objGet]
        by_cases h' : k'' = k'
        · rw [if_pos h', if_pos h']
        · rw [if_neg h', if_neg h', ih]

theorem objSet_eq_objSetIn {k : String} (v : Json) {o : Obj}
    (h : objContains k o = true) : objSet k v o = objSetIn k v o := by
  simp [objSet, h]

theorem objSet_keys {k : String} (v : Json) {o : Obj} (h : objContains k o = true) :
    (objSet k v o).map Prod.fst = o.map Prod.fst := by
  rw [objSet_eq_objSetIn v h, objSetIn_keys]

theorem objGet_objSet_self {k : String} (v : Json) {o : Obj}
    (h : objContains k o = true) : objGet k (objSet k v o) = some v := by
  rw [objSet_eq_objSetIn v h]; exact objGet_objSetIn_self v h

theorem objGet_objSet_ne {k k' : String} (v : Json) {o : Obj}
    (h : objContains k o = true) (hk : k' ≠ k) :
    objGet k' (objSet k v o) = objGet k' o := by
  rw [objSet_eq_objSetIn v h, objGet_objSetIn_ne v hk]

theorem objContains_objErase_self (k : String) (o : Obj) :
    objContains k (objErase k o) = false := by
  induction o with
  | nil => rfl
  | cons p rest ih =>
      obtain ⟨k', v⟩ := p
      by_cases h : k' = k <;> simp [objErase, h, objContains, ih]

theorem objErase_eq_self_of_contains_false {k : String} {o : Obj}
    (h : objContains k o = false) : objErase k o = o := by
  induction o with
  | nil => rfl
  | cons p rest ih =>
      obtain ⟨k', v⟩ := p
      simp only [objContains, Bool.or_eq_false_iff, decide_eq_false_iff_not] at h
      simp [objErase, h.1, ih h.2]

/-- Every entry stored under key k has value v. -/
def objAllVal (k : String) (v : Json) (o : Obj) : Prop :=
  ∀ p ∈ o, p.1 = k → p.2 = v

theorem objAllVal_of_contains_false {k : String} {v : Json} {o : Obj}
    (h : objContains k o = false) : objAllVal k v o := by
  intro p hp heq
  have : objContains k o = true :=
    objContains_iff_mem_keys.mpr (List.mem_map.mpr ⟨p, hp, heq⟩)
  rw [h] at this
  cases this

theorem objAllVal_objSetIn_self (k : String) (v : Json) (o : Obj) :
    objAllVal k v (objSetIn k v o) := by
  induction o with
  | nil => intro p hp _; cases hp
  | cons q rest ih =>
      obtain ⟨k', v'⟩ := q
      intro p hp heq
      by_cases h : k' = k
      · simp only [objSetIn, if_pos h] at hp
        rcases List.mem_cons.mp hp with rfl | hp
        · rfl
        · exact ih p hp heq
      · simp only [objSetIn, if_neg h] at hp
        rcases List.mem_cons.mp hp with rfl | hp
        · exact absurd heq h
        · exact ih p hp heq

theorem objAllVal_objSetIn_ne {k k' : String} {v w : Json} (hk : k ≠ k') {o : Obj}
    (h : objAllVal k v o) : objAllVal k v (objSetIn k' w o) := by
  induction o with
  | nil => intro p hp _; cases hp
  | cons q rest ih =>
      obtain ⟨k'', v''⟩ := q
      have htail : objAllVal k v rest := fun p hp heq => h p (List.mem_cons_of_mem _ hp) heq
      intro p hp heq
      by_cases h'' : k'' = k'
      · simp only [objSetIn, if_pos h''] at hp
        rcases List.mem_cons.mp hp with rfl | hp
        · exact absurd (heq.symm.trans h'' : k = k') hk
        · exact ih htail p hp heq
      · simp only [objSetIn, if_neg h''] at hp
        rcases List.mem_cons.mp hp with rfl | hp
        · exact h _ (List.mem_cons_self _ _) heq
        · exact ih htail p hp heq

theorem objSetIn_eq_self_of_allVal {k : String} {v : Json} {o : Obj}
    (h : objAllVal k v o) : objSetIn k v o = o := by
  induction o with
  | nil => rfl
  | cons q rest ih =>
      obtain ⟨k', v'⟩ := q
      have htail : objAllVal k v rest := fun p hp heq => h p (List.mem_cons_of_mem _ hp) heq
      by_cases hk : k' = k
      · have hv : v' = v := h (k', v') (List.mem_cons_self _ _) hk
        simp [objSetIn, hk, hv, ih htail]
      · simp [objSetIn, hk, ih htail]

/-! ### Lemmas about the existence-gated assignment pattern
if k in fs: fs[k] = value (steps 2 and 3 of the source) -/

theorem guardSet_keys (key : String) (value : Json) (o : Obj) :
    (if objContains key o = true then objSet key value o else o).map Prod.fst
      = o.map Prod.fst := by
  by_cases h : objContains key o = true
  · rw [if_pos h, objSet_keys value h]
  · rw [if_neg h]

theorem guardSet_objGet_ne (key : String) (value : Json) {k : String} (hk : k ≠ key)
    (o : Obj) :
    objGet k (if objContains key o = true then objSet key value o else o) = objGet k o := by
  by_cases h : objContains key o = true
  · rw [if_pos h, objGet_objSet_ne value h hk]
  · rw [if_neg h]

theorem guardSet_objGet_self (key : String) (value : Json) (o : Obj) :
    objGet key (if objContains key o = true then objSet key value o else o)
      = if objContains key o = true then some value else none := by
  by_cases h : objContains key o = true
  · rw [if_pos h, if_pos h, objGet_objSet_self value h]
  · rw [if_neg h, if_neg h, objGet_eq_none_of_contains_false (bool_eq_false h)]

theorem guardSet_allVal (key : String) (value : Json) (o : Obj) :
    objAllVal key value (if objContains key o = true then objSet key value o else o) := by
  by_cases h : objContains key o = true
  · rw [if_pos h, objSet_eq_objSetIn value h]
    exact objAllVal_objSetIn_self key value o
  · rw [if_neg h]
    exact objAllVal_of_contains_false (bool_eq_false h)

theorem guardSet_allVal_preserve (key : String) (value : Json) {k : String} {v : Json}
    (hk : k ≠ key) {o : Obj} (h : objAllVal k v o) :
    objAllVal k v (if objContains key o = true then objSet key value o else o) := by
  by_cases hb : objContains key o = true
  · rw [if_pos hb, objSet_eq_objSetIn value hb]
    exact objAllVal_objSetIn_ne hk h
  · rwa [if_neg hb]

theorem guardSet_eq_self_of_allVal (key : String) (value : Json) {o : Obj}
    (h : objAllVal key value o) :
    (if objContains key o = true then objSet key value o else o) = o := by
  by_cases hb : objContains key o = true
  · rw [if_pos hb, objSet_eq_objSetIn value hb]
    exact objSetIn_eq_self_of_allVal h
  · rw [if_neg hb]

/-! ### Lemmas about the three edit steps and filterSchema -/

theorem removeKeyProperty_eq_none {o : Obj} (hp : objGet "properties" o = none) :
    removeKeyProperty o = .ok o := by
  rw [removeKeyProperty, hp]

theorem removeKeyProperty_eq_of_ok_false {o : Obj} {v : Json}
    (hp : objGet "properties" o = some v) (hc : pyContains "key" v = .ok false) :
    removeKeyProperty o = .ok o := by
  rw [removeKeyProperty]
  simp only [hp, hc]

theorem removeKeyProperty_eq_of_obj {o : Obj} {props : Obj}
    (hp : objGet "properties" o = some (.obj props)) :
    removeKeyProperty o =
      if objContains "key" props = true
      then .ok (objSet "properties" (.obj (objErase "key" props)) o)
      else .ok o := by
  rw [removeKeyProperty]
  simp only [hp]
  cases hk : objContains "key" props <;> simp [pyContains, pyDelItem, hk]

theorem removeKeyProperty_ok_cases {o fs : Obj} (h : removeKeyProperty o = .ok fs) :
    (objGet "properties" o = none ∧ fs = o) ∨
    (∃ v, objGet "properties" o = some v ∧ pyContains "key" v = .ok false ∧ fs = o) ∨
    (∃ props, objGet "properties" o = some (.obj props) ∧ objContains "key" props = true ∧
        fs = objSet "properties" (.obj (objErase "key" props)) o) := by
  rw [removeKeyProperty] at h
  cases hp : objGet "properties" o with
  | none =>
      simp only [hp] at h
      injection h with h'
      exact Or.inl ⟨rfl, h'.symm⟩
  | some v =>
      simp only [hp] at h
      cases hc : pyContains "key" v with
      | error e =>
          simp only [hc] at h
          exact Except.noConfusion h
      | ok b =>
          cases b
          · simp only [hc] at h
            injection h with h'
            exact Or.inr (Or.inl ⟨v, rfl, hc, h'.symm⟩)
          · simp only [hc] at h
            cases hd : pyDelItem "key" v with
            | error e =>
                simp only [hd] at h
                exact Except.noConfusion h
            | ok v2 =>
                simp only [hd] at h
                injection h with h'
                cases v with
                | obj props =>
                    injection hd with hd'
                    injection hc with hc'
                    exact Or.inr (Or.inr ⟨props, rfl, hc', by rw [← h', ← hd']⟩)
                | null => exact Except.noConfusion hd
                | bool b => exact Except.noConfusion hd
                | num n => exact Except.noConfusion hd
                | str s => exact Except.noConfusion hd
                | arr xs => exact Except.noConfusion hd

theorem removeKeyProperty_objGet_ne {o fs : Obj} (h : removeKeyProperty o = .ok fs)
    {k : String} (hk : k ≠ "properties") : objGet k fs = objGet k o := by
  rcases removeKeyProperty_ok_cases h with ⟨_, rfl⟩ | ⟨v, _, _, rfl⟩ | ⟨props, hp, _, rfl⟩
  · rfl
  · rfl
  · exact objGet_objSet_ne _ (objContains_of_objGet hp) hk

theorem removeKeyProperty_keys {o fs : Obj} (h : removeKeyProperty o = .ok fs) :
    fs.map Prod.fst = o.map Prod.fst := by
  rcases removeKeyProperty_ok_cases h with ⟨_, rfl⟩ | ⟨v, _, _, rfl⟩ | ⟨props, hp, _, rfl⟩
  · rfl
  · rfl
  · exact objSet_keys _ (objContains_of_objGet hp)

theorem narrowOneOf_keys (o : Obj) : (narrowOneOf o).map Prod.fst = o.map Prod.fst :=
  guardSet_keys "oneOf" idOneOfValue o

theorem narrowOneOf_objGet_ne {k : String} (hk : k ≠ "oneOf") (o : Obj) :
    objGet k (narrowOneOf o) = objGet k o :=
  guardSet_objGet_ne "oneOf" idOneOfValue hk o

theorem narrowOneOf_objGet_self (o : Obj) :
    objGet "oneOf" (narrowOneOf o)
      = if objContains "oneOf" o = true then some idOneOfValue else none :=
  guardSet_objGet_self "oneOf" idOneOfValue o

theorem narrowOneOf_allVal (o : Obj) : objAllVal "oneOf" idOneOfValue (narrowOneOf o) :=
  guardSet_allVal "oneOf" idOneOfValue o

theorem narrowOneOf_eq_self_of_allVal {o : Obj}
    (h : objAllVal "oneOf" idOneOfValue o) : narrowOneOf o = o :=
  guardSet_eq_self_of_allVal "oneOf" idOneOfValue h

theorem updateDescription_keys (o : Obj) :
    (updateDescription o).map Prod.fst = o.map Prod.fst :=
  guardSet_keys "description" (.str filteredDescription) o

theorem updateDescription_objGet_ne {k : String} (hk : k ≠ "description") (o : Obj) :
    objGet k (updateDescription o) = objGet k o :=
  guardSet_objGet_ne "description" (.str filteredDescription) hk o

theorem updateDescription_allVal (o : Obj) :
    objAllVal "description" (.str filteredDescription) (updateDescription o) :=
  guardSet_allVal "description" (.str filteredDescription) o

theorem updateDescription_allVal_preserve {k : String} {v : Json}
    (hk : k ≠ "description") {o : Obj} (h : objAllVal k v o) :
    objAllVal k v (updateDescription o) :=
  guardSet_allVal_preserve "description" (.str filteredDescription) hk h

theorem updateDescription_eq_self_of_allVal {o : Obj}
    (h : objAllVal "description" (.str filteredDescription) o) : updateDescription o = o :=
  guardSet_eq_self_of_allVal "description" (.str filteredDescription) h

theorem narrowOneOf_allVal_preserve {k : String} {v : Json}
    (hk : k ≠ "oneOf") {o : Obj} (h : objAllVal k v o) :
    objAllVal k v (narrowOneOf o) :=
  guardSet_allVal_preserve "oneOf" idOneOfValue hk h

theorem filterSchema_eq (d : Obj) :
    filterSchema d =
      match removeKeyProperty d with
      | .error e => .error e
      | .ok fs => .ok (updateDescription (narrowOneOf fs)) := by
  rw [filterSchema, deepCopyObj_eq]

theorem filterSchema_ok_elim {d r : Obj} (h : filterSchema d = .ok r) :
    ∃ fs, removeKeyProperty d = .ok fs ∧ r = updateDescription (narrowOneOf fs) := by
  rw [filterSchema_eq] at h
  cases hrk : removeKeyProperty d with
  | error e => rw [hrk] at h; exact Except.noConfusion h
  | ok fs =>
      rw [hrk] at h
      injection h with h'
      exact ⟨fs, rfl, h'.symm⟩

theorem filterSchema_ok_intro {d fs : Obj} (h : removeKeyProperty d = .ok fs) :
    filterSchema d = .ok (updateDescription (narrowOneOf fs)) := by
  rw [filterSchema_eq, h]

/-! ### Claim theorems -/

/-- C1: whenever filterSchema returns a document, its oneOf entry is the
single-element sequence [obj with required = [id, specVersion, states]]
whatever the input's original oneOf value was; when the input has no
oneOf key the step is a no-op and the output has none either. -/
theorem oneOf_narrowing (d r : Obj) (h : filterSchema d = .ok r) :
    objGet "oneOf" r
      = if objContains "oneOf" d = true then some idOneOfValue else none := by
  rcases filterSchema_ok_elim h with ⟨fs, hrk, rfl⟩
  rw [updateDescription_objGet_ne (by decide), narrowOneOf_objGet_self,
    objContains_congr_keys (removeKeyProperty_keys hrk)]

/-- C1 witness: on the document {"oneOf": 1} the returned oneOf is the
canonical single-element sequence. -/
theorem oneOf_narrowing_witness :
    objGet "oneOf" exOneOfOut
      = if objContains "oneOf" exOneOfDoc = true then some idOneOfValue else none :=
  oneOf_narrowing exOneOfDoc exOneOfOut rfl

/-- C2: filterSchema is idempotent.  Composing the function with itself
(through the error monad, so a raising input propagates its error) equals
a single application; in particular on every document on which the
function succeeds, running it again returns the same document unchanged. -/
theorem filter_idempotent (d : Obj) :
    (filterSchema d).bind filterSchema = filterSchema d := by
  cases hfd : filterSchema d with
  | error e => rfl
  | ok r =>
      show filterSchema r = Except.ok r
      rcases filterSchema_ok_elim hfd with ⟨fs, hrk, hr⟩
      have hget : objGet "properties" r = objGet "properties" fs := by
        rw [hr, updateDescription_objGet_ne (by decide), narrowOneOf_objGet_ne (by decide)]
      have hone : objAllVal "oneOf" idOneOfValue r := by
        rw [hr]
        exact updateDescription_allVal_preserve (by decide) (narrowOneOf_allVal fs)
      have hdesc : objAllVal "description" (.str filteredDescription) r := by
        rw [hr]
        exact updateDescription_allVal (narrowOneOf fs)
      have hrkr : removeKeyProperty r = .ok r := by
        rcases removeKeyProperty_ok_cases hrk with
          ⟨hp, rfl⟩ | ⟨v, hp, hc, rfl⟩ | ⟨props, hp, hk, hfs⟩
        · exact removeKeyProperty_eq_none (hget.trans hp)
        · exact removeKeyProperty_eq_of_ok_false (hget.trans hp) hc
        · have hgfs : objGet "properties" fs = some (.obj (objErase "key" props)) := by
            rw [hfs]
            exact objGet_objSet_self _ (objContains_of_objGet hp)
          refine removeKeyProperty_eq_of_ok_false (hget.trans hgfs) ?_
          simp [pyContains, objContains_objErase_self]
      rw [filterSchema_eq]
      simp only [hrkr, narrowOneOf_eq_self_of_allVal hone,
        updateDescription_eq_self_of_allVal hdesc]

/-- C2 witness: on the scenario input, applying the function to its own
output returns that output unchanged. -/
theorem filter_idempotent_witness :
    (filterSchema scenarioInput).bind filterSchema = filterSchema scenarioInput :=
  filter_idempotent scenarioInput

/-- C3: on the spec's concrete scenario input the function returns exactly
the scenario output: key dropped from properties, oneOf narrowed to the
ID-based variant, description annotated. -/
theorem scenario_concrete : filterSchema scenarioInput = .ok scenarioOutput := rfl

/-- C4: when the properties mapping contains "key" the result's properties
mapping has no "key" entry; when "key" is absent from the properties
mapping, or the properties key itself is absent, the step is a no-op and
the function still succeeds. -/
theorem key_removal (d : Obj) :
    (∀ props, objGet "properties" d = some (.obj props) → objContains "key" props = true →
      ∃ r, filterSchema d = .ok r ∧
        ∃ props', objGet "properties" r = some (.obj props') ∧
          objContains "key" props' = false) ∧
    (∀ props, objGet "properties" d = some (.obj props) → objContains "key" props = false →
      ∃ r, filterSchema d = .ok r ∧ objGet "properties" r = some (.obj props)) ∧
    (objGet "properties" d = none →
      ∃ r, filterSchema d = .ok r ∧ objGet "properties" r = none) := by
  refine ⟨?_, ?_, ?_⟩
  · intro props hp hk
    have hrk : removeKeyProperty d
        = .ok (objSet "properties" (.obj (objErase "key" props)) d) := by
      rw [removeKeyProperty_eq_of_obj hp, if_pos hk]
    refine ⟨_, filterSchema_ok_intro hrk, objErase "key" props, ?_,
      objContains_objErase_self _ _⟩
    rw [updateDescription_objGet_ne (by decide), narrowOneOf_objGet_ne (by decide)]
    exact objGet_objSet_self _ (objContains_of_objGet hp)
  · intro props hp hk
    have hrk : removeKeyProperty d = .ok d := by
      rw [removeKeyProperty_eq_of_obj hp,
        if_neg (by rw [hk]; exact Bool.false_ne_true)]
    refine ⟨_, filterSchema_ok_intro hrk, ?_⟩
    rw [updateDescription_objGet_ne (by decide), narrowOneOf_objGet_ne (by decide)]
    exact hp
  · intro hp
    refine ⟨_, filterSchema_ok_intro (removeKeyProperty_eq_none hp), ?_⟩
    rw [updateDescription_objGet_ne (by decide), narrowOneOf_objGet_ne (by decide)]
    exact hp

/-- C4 witness: on a document whose properties mapping holds both "key"
and "id", the result's properties mapping contains no "key". -/
theorem key_removal_witness :
    ∃ r, filterSchema [("properties", Json.obj [("key", Json.str "k"), ("id", Json.str "i")])]
        = .ok r ∧
      ∃ props', objGet "properties" r = some (.obj props') ∧
        objContains "key" props' = false :=
  (key_removal _).1 [("key", Json.str "k"), ("id", Json.str "i")] rfl rfl

/-- C5: the function never mutates its argument.  In the statement-level
state-passing embedding of the body, the copy bound on line 21 is an
independent tree deeply equal to the input (first conjunct), every
statement rewrites only the filtered_schema variable, and on both the
normal and the raising path the schema_dict variable still holds the
original document when control leaves the function. -/
theorem filter_non_mutation (d : Obj) :
    deepCopyObj d = d ∧
    (∀ s, runFilterBody d = .ok s → s.schema_dict = d) ∧
    (∀ e s, runFilterBody d = .error (e, s) → s.schema_dict = d) := by
  refine ⟨deepCopyObj_eq d, ?_, ?_⟩
  · intro s hs
    rw [runFilterBody] at hs
    cases hrk : removeKeyProperty (deepCopyObj d) with
    | error e =>
        simp only [hrk] at hs
        exact Except.noConfusion hs
    | ok fs =>
        simp only [hrk] at hs
        injection hs with hs'
        rw [← hs']
  · intro e s hs
    rw [runFilterBody] at hs
    cases hrk : removeKeyProperty (deepCopyObj d) with
    | error e' =>
        simp only [hrk] at hs
        injection hs with hs'
        injection hs' with he hst
        rw [← hst]
    | ok fs =>
        simp only [hrk] at hs
        exact Except.noConfusion hs

/-- C5 witness: running the embedded body on {"oneOf": null} ends with the
schema_dict variable still equal to the input document. -/
theorem filter_non_mutation_witness : exRunState.schema_dict = exRunDoc :=
  (filter_non_mutation exRunDoc).2.1 exRunState rfl

/-- C6: on success the function changes at most the root entries
properties (and there only by dropping "key"), oneOf and description:
every other root key maps to its original value, the root key sequence is
unchanged, and when the document lacks key-under-properties, oneOf and
description the output is the input, identically. -/
theorem frame_condition (d r : Obj) (h : filterSchema d = .ok r) :
    (∀ k, k ≠ "properties" → k ≠ "oneOf" → k ≠ "description" →
      objGet k r = objGet k d) ∧
    r.map Prod.fst = d.map Prod.fst ∧
    (∀ props, objGet "properties" d = some (.obj props) →
      objGet "properties" r = some (.obj (objErase "key" props))) ∧
    ((∀ v, objGet "properties" d = some v → pyContains "key" v = .ok false) →
      objContains "oneOf" d = false → objContains "description" d = false → r = d) := by
  rcases filterSchema_ok_elim h with ⟨fs, hrk, rfl⟩
  refine ⟨?_, ?_, ?_, ?_⟩
  · intro k h1 h2 h3
    rw [updateDescription_objGet_ne h3, narrowOneOf_objGet_ne h2,
      removeKeyProperty_objGet_ne hrk h1]
  · rw [updateDescription_keys, narrowOneOf_keys, removeKeyProperty_keys hrk]
  · intro props hp
    rw [updateDescription_objGet_ne (by decide), narrowOneOf_objGet_ne (by decide)]
    rcases removeKeyProperty_ok_cases hrk with
      ⟨hp', rfl⟩ | ⟨v, hp', hc, rfl⟩ | ⟨props', hp', hk', hfs⟩
    · rw [hp'] at hp
      exact Option.noConfusion hp
    · rw [hp] at hp'
      have hv : Json.obj props = v := Option.some.inj hp'
      rw [← hv] at hc
      have hfalse : objContains "key" props = false := by
        simp only [pyContains] at hc
        exact Except.ok.inj hc
      rw [objErase_eq_self_of_contains_false hfalse]
      exact hp
    · have hpp : props' = props := by
        have h2 := Option.some.inj (hp'.symm.trans hp)
        injection h2
      rw [hfs, hpp]
      exact objGet_objSet_self _ (objContains_of_objGet hp)
  · intro hnokey hone hdesc
    have hrk' : removeKeyProperty d = .ok d := by
      cases hp : objGet "properties" d with
      | none => exact removeKeyProperty_eq_none hp
      | some v => exact removeKeyProperty_eq_of_ok_false hp (hnokey v hp)
    have hfsd : fs = d := Except.ok.inj (hrk.symm.trans hrk')
    have h1 : narrowOneOf d = d := by
      rw [narrowOneOf, if_neg (by rw [hone]; exact Bool.false_ne_true)]
    have h2 : updateDescription d = d := by
      rw [updateDescription, if_neg (by rw [hdesc]; exact Bool.false_ne_true)]
    rw [hfsd, h1, h2]

/-- C6 witness: on a full document the untouched root entries $schema and
definitions keep their values and the root key sequence is preserved. -/
theorem frame_condition_witness :
    objGet "definitions" exFullOut = objGet "definitions" exFullDoc ∧
    exFullOut.map Prod.fst = exFullDoc.map Prod.fst :=
  ⟨(frame_condition exFullDoc exFullOut rfl).1 "definitions"
      (by decide) (by decide) (by decide),
   (frame_condition exFullDoc exFullOut rfl).2.1⟩

/-- C7: the token estimate of a string is the floor of a quarter of its
length; the empty string estimates to 0 tokens. -/
theorem token_estimate_formula :
    (∀ s : String, count_tokens_estimate s = Nat.floor ((s.length : ℚ) / 4)) ∧
    count_tokens_estimate "" = 0 := by
  constructor
  · intro s
    rw [count_tokens_estimate]
    exact (Nat.floor_div_eq_div (α := ℚ) s.length 4).symm
  · rfl

/-- C8: each percentage is (original - filtered) / original * 100 when the
original measure is positive and is defined as 0 when the original measure
is 0 instead of raising a division error; in particular comparing against
an empty original serialization yields 0 percent on both measures. -/
theorem division_guard (o f : String) :
    (count_tokens_estimate o = 0 → tokenReductionPercent o f = 0) ∧
    (0 < count_tokens_estimate o →
      tokenReductionPercent o f =
        ((count_tokens_estimate o : ℚ) - (count_tokens_estimate f : ℚ))
          / (count_tokens_estimate o : ℚ) * 100) ∧
    (o.length = 0 → sizeReductionPercent o f = 0) ∧
    (0 < o.length →
      sizeReductionPercent o f =
        ((o.length : ℚ) - (f.length : ℚ)) / (o.length : ℚ) * 100) ∧
    tokenReductionPercent "" f = 0 ∧
    sizeReductionPercent "" f = 0 := by
  refine ⟨?_, ?_, ?_, ?_, ?_, ?_⟩
  · intro h
    simp [tokenReductionPercent, h]
  · intro h
    simp only [tokenReductionPercent]
    rw [if_pos h]
    push_cast
    ring
  · intro h
    simp [sizeReductionPercent, h]
  · intro h
    simp only [sizeReductionPercent]
    rw [if_pos h]
    push_cast
    ring
  · simp [tokenReductionPercent, count_tokens_estimate]
  · simp [sizeReductionPercent]

/-- C8 witness: comparing the empty original serialization against "abcd"
reports 0 percent reduction on both measures instead of raising. -/
theorem division_guard_witness :
    tokenReductionPercent "" "abcd" = 0 ∧ sizeReductionPercent "" "abcd" = 0 :=
  ⟨(division_guard "" "abcd").1 rfl, (division_guard "" "abcd").2.2.1 rfl⟩

/-- C9 counterexample: the claim says the function never raises on any
well-formed JSON-like document, but on {"properties": 5} line 24's
membership test "key" in 5 raises a TypeError, so the function does not
return a filtered document. -/
theorem filter_raises_on_numeric_properties :
    filterSchema [("properties", Json.num 5)]
      = .error "TypeError: argument of type is not iterable" := rfl

/-- C9 amended: the function performs only existence-gated edits and never
raises provided that, whenever the root key properties is present, its
value tolerates the "key" membership test and deletion of line 24 (true
for every mapping and for any sequence or string not containing "key");
in particular it succeeds whenever properties, key, oneOf or description
is absent. -/
theorem filter_never_raises_amended (d : Obj)
    (h : ∀ v, objGet "properties" d = some v → propsTolerates v = true) :
    ∃ r, filterSchema d = .ok r := by
  cases hp : objGet "properties" d with
  | none => exact ⟨_, filterSchema_ok_intro (removeKeyProperty_eq_none hp)⟩
  | some v =>
      have ht := h v hp
      rw [propsTolerates] at ht
      cases hc : pyContains "key" v with
      | error e =>
          simp only [hc] at ht
          exact Bool.noConfusion ht
      | ok b =>
          cases b
          · exact ⟨_, filterSchema_ok_intro (removeKeyProperty_eq_of_ok_false hp hc)⟩
          · simp only [hc] at ht
            cases hd : pyDelItem "key" v with
            | error e =>
                simp only [hd] at ht
                exact Bool.noConfusion ht
            | ok v2 =>
                have hrk : removeKeyProperty d = .ok (objSet "properties" v2 d) := by
                  rw [removeKeyProperty]
                  simp only [hp, hc, hd]
                exact ⟨_, filterSchema_ok_intro hrk⟩

/-- C9 amended witness: a document whose properties mapping does contain
"key" and which carries a oneOf entry is filtered without an error. -/
theorem filter_never_raises_amended_witness :
    ∃ r, filterSchema [("properties", Json.obj [("key", Json.str "x")]),
        ("oneOf", Json.str "z")] = .ok r :=
  filter_never_raises_amended _ (fun v hv => by
    injection hv with hv'
    rw [← hv']
    rfl)

/-- C10: the token-percentage guard tests the token estimate, not the
serialized length, so an original serialization of length 1 to 3 has
token estimate 0 and reports 0 percent token reduction, while the
size-reduction percentage is still computed from its positive length. -/
theorem token_guard_edge (o f : String) (h1 : 1 ≤ o.length) (h2 : o.length ≤ 3) :
    tokenReductionPercent o f = 0 ∧
    0 < o.length ∧
    sizeReductionPercent o f =
      ((o.length : ℚ) - (f.length : ℚ)) / (o.length : ℚ) * 100 := by
  have htok : count_tokens_estimate o = 0 := by
    rw [count_tokens_estimate]
    exact Nat.div_eq_of_lt (by omega)
  refine ⟨?_, h1, ?_⟩
  · simp [tokenReductionPercent, htok]
  · simp only [sizeReductionPercent]
    rw [if_pos (by omega : 0 < o.length)]
    push_cast
    ring

/-- C10 witness: comparing the 3-character original "abc" with the empty
filtered form reports 0 percent token reduction but a size reduction
computed from the 3-byte original. -/
theorem token_guard_edge_witness :
    tokenReductionPercent "abc" "" = 0 ∧
    0 < "abc".length ∧
    sizeReductionPercent "abc" "" =
      (("abc".length : ℚ) - ("".length : ℚ)) / ("abc".length : ℚ) * 100 :=
  token_guard_edge "abc" "" (by decide) (by decide)

end OrchestratorSchemaRules
